import Mathlib

/-!
Verification of the namespace-filtering and trace-context-correlation
subsystem of the stern-logger repository.

The embedded code lives in `src/src/utils/validation.ts`, which bundles
three modules: input validation, the namespace filter
(`parseNamespacePatterns`, `buildNamespace`, `isNamespaceEnabled`,
`clearNamespaceCache`) and the trace-context manager
(`TraceContextManager`, `createTraceMixin`).

Modelling conventions:
* JavaScript `Map` objects are modelled as association lists in insertion
  order (`List (String × α)`): `Map.get` reads the first matching key,
  `Map.set` overwrites in place when the key is present and appends
  otherwise, `Map.delete` removes the entry, and `for (const [k,v] of map)`
  iterates in list order.  These are exactly the semantics of JS `Map`.
* `Date.now()` readings are passed in explicitly as `Nat` millisecond
  values; distinct readings inside one operation get distinct parameters.
* Compiled `RegExp` matchers: `parseNamespacePatterns` escapes every regex
  metacharacter except `*`, rewrites `*` to `.*` and anchors with `^...$`,
  so the compiled regex denotes the glob language of the segment; a matcher
  is modelled as the segment's character list with `*` as the wildcard, and
  `RegExp.test` as a full glob match in which the wildcard `.*` matches any
  sequence of characters that are not JS line terminators (JS `.` does not
  match `\n`, `\r`, U+2028, U+2029).
* Object identity (needed for the config cache claims) is modelled by
  tagging each freshly allocated `NamespaceConfig` with a fresh `Nat`
  allocation reference.
-/

/-- `SpanContext` from `src/types`: mandatory `traceId`/`spanId` strings,
optional `traceFlags`/`traceState` strings. -/
structure SpanContext where
  traceId : String
  spanId : String
  traceFlags : Option String := none
  traceState : Option String := none
deriving DecidableEq, Repr

/-- `TraceContextEntry` (validation.ts lines 609-613). -/
structure TraceContextEntry where
  context : SpanContext
  timestamp : Nat
  lastAccessed : Nat
deriving DecidableEq, Repr

/-- `TraceContextConfig` (validation.ts lines 618-622). -/
structure TraceContextConfig where
  maxSize : Nat
  ttlMs : Nat
  cleanupIntervalMs : Nat
deriving DecidableEq, Repr

/-- A JS `Map<String, α>` as an association list in insertion order. -/
abbrev JsMap (α : Type) : Type := List (String × α)

/-- `Map.get`: the value at the key, reading the first occurrence. -/
def assocGet {α : Type} : JsMap α → String → Option α
  | [], _ => none
  | kv :: rest, k => if kv.1 = k then some kv.2 else assocGet rest k

/-- `Map.set`: overwrite in place when present, append when absent. -/
def assocSet {α : Type} : JsMap α → String → α → JsMap α
  | [], k, v => [(k, v)]
  | kv :: rest, k, v => if kv.1 = k then (k, v) :: rest else kv :: assocSet rest k v

/-- `Map.delete`: remove the entry with the key (first occurrence). -/
def assocDelete {α : Type} : JsMap α → String → JsMap α
  | [], _ => []
  | kv :: rest, k => if kv.1 = k then rest else kv :: assocDelete rest k

/-- The keys of a map state, in order. -/
def mapKeys {α : Type} (s : JsMap α) : List String := s.map Prod.fst

/-- The state of `TraceContextManager.contexts`. -/
abbrev TraceStore : Type := JsMap TraceContextEntry

namespace TraceContextManager

/-- The `for (const [key, entry] of this.contexts)` loop of `evictOldest`
(validation.ts lines 720-725): threads the accumulator
`(oldestKey, oldestTime)` through the entries, replacing it whenever
`entry.lastAccessed < oldestTime` (strict). -/
def findOldest : TraceStore → Option String × Nat → Option String × Nat
  | [], acc => acc
  | kv :: rest, acc =>
      findOldest rest
        (if kv.2.lastAccessed < acc.2 then (some kv.1, kv.2.lastAccessed) else acc)

/-- `TraceContextManager.evictOldest` (validation.ts lines 716-730).
`oldestTime` starts at the `Date.now()` reading `now`; if no entry has
`lastAccessed` strictly below it, `oldestKey` stays `undefined` and nothing
is deleted. -/
def evictOldest (s : TraceStore) (now : Nat) : TraceStore :=
  match (findOldest s (none, now)).1 with
  | some k => assocDelete s k
  | none => s

/-- `TraceContextManager.set` (validation.ts lines 651-664).  `now` is the
`Date.now()` reading taken at entry; `nowEvict` is the separate reading
`evictOldest` takes for its initial `oldestTime`. -/
def set (cfg : TraceContextConfig) (s : TraceStore) (now nowEvict : Nat)
    (threadId : String) (context : SpanContext) : TraceStore :=
  let s1 := if cfg.maxSize ≤ s.length then evictOldest s nowEvict else s
  assocSet s1 threadId { context := context, timestamp := now, lastAccessed := now }

/-- `TraceContextManager.get` (validation.ts lines 671-688): returns the
looked-up context (or `none`) together with the updated store state. -/
def get (cfg : TraceContextConfig) (s : TraceStore) (now : Nat)
    (threadId : String) : Option SpanContext × TraceStore :=
  match assocGet s threadId with
  | none => (none, s)
  | some entry =>
      if cfg.ttlMs < now - entry.timestamp then
        (none, assocDelete s threadId)
      else
        (some entry.context,
          assocSet s threadId { entry with lastAccessed := now })

/-- `TraceContextManager.clear` (validation.ts lines 694-696). -/
def clear (s : TraceStore) (threadId : String) : TraceStore :=
  assocDelete s threadId

/-- `TraceContextManager.size` (validation.ts lines 709-711). -/
def size (s : TraceStore) : Nat := s.length

end TraceContextManager

/-- Behaviour of one call to the optional `getActiveContext` provider passed
to `createTraceMixin`: it either throws (`Except.error`) or returns a
`SpanContext | undefined` (`Except.ok`). -/
abbrev ProviderResult : Type := Except Unit (Option SpanContext)

/-- The record built from a span context by the mixin (validation.ts lines
856-867): `trace_id` and `span_id` always, `trace_flags` / `trace_state`
only when the corresponding optional field is a non-empty string.  The
`Record<string, unknown>` is modelled as an ordered key/value list. -/
def contextToRecord (ctx : SpanContext) : List (String × String) :=
  [("trace_id", ctx.traceId), ("span_id", ctx.spanId)]
    ++ (match ctx.traceFlags with
        | some f => if 0 < f.length then [("trace_flags", f)] else []
        | none => [])
    ++ (match ctx.traceState with
        | some t => if 0 < t.length then [("trace_state", t)] else []
        | none => [])

/-- One invocation of the closure returned by `createTraceMixin`
(validation.ts lines 834-872).  `provider` is `none` when no
`getActiveContext` argument was supplied, and otherwise carries the result
of calling it this time; `threadId` is the value `getCurrentThreadId()`
returns; `s` is the global `traceContextManager` state and `now` the
`Date.now()` reading used by its `get`.  Returns the produced record and
the store state after the invocation. -/
def traceMixin (cfg : TraceContextConfig) (provider : Option ProviderResult)
    (s : TraceStore) (now : Nat) (threadId : String) :
    List (String × String) × TraceStore :=
  let fromStore :=
    fun (_ : Unit) =>
      let r := TraceContextManager.get cfg s now threadId
      (r.1, r.2)
  let obtained : Option SpanContext × TraceStore :=
    match provider with
    | some (Except.ok ctx) => (ctx, s)
    | some (Except.error _) => fromStore ()
    | none => fromStore ()
  match obtained.1 with
  | some ctx => (contextToRecord ctx, obtained.2)
  | none => ([], obtained.2)

/-- The span context the mixin ends up acting on: the provider's result when
it is supplied and does not throw, the manual store's `get` result
otherwise. -/
def obtainedContext (cfg : TraceContextConfig) (provider : Option ProviderResult)
    (s : TraceStore) (now : Nat) (threadId : String) : Option SpanContext :=
  match provider with
  | some (Except.ok ctx) => ctx
  | some (Except.error _) => (TraceContextManager.get cfg s now threadId).1
  | none => (TraceContextManager.get cfg s now threadId).1

/-- The JS line terminators, which `.` in a regex without the `s` flag does
not match. -/
def isLineTerminator (c : Char) : Bool :=
  c = '\n' || c = '\r' || c.val = 0x2028 || c.val = 0x2029

/-- The `.*` loop: succeed if the rest of the pattern (`next`) matches some
suffix of the string reachable by consuming non-line-terminator
characters. -/
def starLoop (next : List Char → Bool) : List Char → Bool
  | [] => next []
  | c :: rest => next (c :: rest) || (!isLineTerminator c && starLoop next rest)

/-- Full-match semantics of the compiled matcher regex `^p₁p₂...pₙ$` in which
every pattern character is literal except `*`, which was rewritten to `.*`
(validation.ts lines 488-493).  `.*` matches any sequence of
non-line-terminator characters. -/
def globMatch : List Char → List Char → Bool
  | [], s => s.isEmpty
  | '*' :: ps, s => starLoop (globMatch ps) s
  | _ :: _, [] => false
  | p :: ps, c :: rest => (p = c) && globMatch ps rest

/-- The JS whitespace set removed by `String.prototype.trim`: the
`WhiteSpace` production (tab, vertical tab, form feed, space, no-break
space, BOM, the Unicode space separators) plus the `LineTerminator`
production. -/
def jsWhitespace (c : Char) : Bool :=
  c = ' ' || c = '\t' || c = '\n' || c = '\r' ||
    c.val = 0x0b || c.val = 0x0c || c.val = 0xa0 || c.val = 0xfeff ||
    c.val = 0x1680 || (0x2000 ≤ c.val && c.val ≤ 0x200a) ||
    c.val = 0x2028 || c.val = 0x2029 || c.val = 0x202f || c.val = 0x205f ||
    c.val = 0x3000

/-- Model of `String.prototype.trim`: drop leading and trailing JS
whitespace. -/
def jsTrim (s : String) : String :=
  ⟨((s.data.dropWhile jsWhitespace).reverse.dropWhile jsWhitespace).reverse⟩

/-- Splitting a character list at every occurrence of the separator; the
empty list yields one empty segment, matching `"".split(",") === [""]`. -/
def splitChars (sep : Char) : List Char → List (List Char)
  | [] => [[]]
  | c :: rest =>
      let r := splitChars sep rest
      if c = sep then [] :: r
      else
        match r with
        | [] => [[c]]
        | g :: gs => (c :: g) :: gs

/-- Model of `String.prototype.split` with a single-character separator. -/
def jsSplit (sep : Char) (s : String) : List String :=
  (splitChars sep s.data).map fun l => ⟨l⟩

/-- `NamespaceConfig` (validation.ts lines 431-442); a compiled `RegExp`
matcher is represented by its glob segment's character list (see the module
docstring). -/
structure NamespaceConfig where
  patterns : String
  matchers : List (List Char)
deriving DecidableEq, Repr

/-- The pure compilation performed by `parseNamespacePatterns` on a cache
miss (validation.ts lines 471-499): trim; empty or `"*"` gives the empty
matcher list; otherwise split on `,`, trim each segment, drop empty
segments and compile each remaining segment into an anchored glob
matcher. -/
def compilePatterns (patterns : String) : NamespaceConfig :=
  let trimmed := jsTrim patterns
  if trimmed = "" || trimmed = "*" then
    { patterns := trimmed, matchers := [] }
  else
    { patterns := trimmed,
      matchers :=
        (((jsSplit ',' trimmed).map jsTrim).filter
            fun p => 0 < p.length).map String.data }

/-- `isNamespaceEnabled` (validation.ts lines 575-586). -/
def isNamespaceEnabled (ns : String) (config : NamespaceConfig) : Bool :=
  if config.matchers.length = 0 then
    true
  else
    config.matchers.any fun matcher => globMatch matcher ns.data

/-- `ServiceMetadata` (src/types): the six optional string fields
`buildNamespace` reads. -/
structure ServiceMetadata where
  service : Option String := none
  component : Option String := none
  operation : Option String := none
  layer : Option String := none
  domain : Option String := none
  integration : Option String := none
deriving DecidableEq, Repr

/-- The `metadata.f != null && metadata.f.length > 0` test of
`buildNamespace`. -/
def presentNonEmpty : Option String → Bool
  | some s => 0 < s.length
  | none => false

/-- `buildNamespace` (validation.ts lines 528-553). -/
def buildNamespace (metadata : ServiceMetadata) : String :=
  let parts : List String :=
    (if presentNonEmpty metadata.component then [metadata.component.getD ""]
     else if presentNonEmpty metadata.service then [metadata.service.getD ""]
     else [])
    ++ (if presentNonEmpty metadata.layer then [metadata.layer.getD ""]
        else if presentNonEmpty metadata.operation then [metadata.operation.getD ""]
        else if presentNonEmpty metadata.domain then [metadata.domain.getD ""]
        else [])
    ++ (if presentNonEmpty metadata.integration then [metadata.integration.getD ""]
        else [])
  String.intercalate ":" parts

/-- The first non-empty string among a priority list of optional fields;
helper for the spec-side description of `buildNamespace`. -/
def pickFirstNonEmpty : List (Option String) → Option String
  | [] => none
  | o :: rest =>
      match o with
      | some s => if 0 < s.length then some s else pickFirstNonEmpty rest
      | none => pickFirstNonEmpty rest

/-- The spec's wording of namespace construction (§4.2), written
independently of the code for the refinement claim about `buildNamespace`:
the colon-join of the primary part (`component`, else `service`), the
secondary part (`layer`, else `operation`, else `domain`) and the suffix
(`integration`), each taken only when non-empty. -/
def buildNamespaceSpec (m : ServiceMetadata) : String :=
  String.intercalate ":"
    ([pickFirstNonEmpty [m.component, m.service],
      pickFirstNonEmpty [m.layer, m.operation, m.domain],
      pickFirstNonEmpty [m.integration]].filterMap id)

/-- A cached config together with its allocation identity: two configs are
"the same object" exactly when their `ref` tags agree (see the module
docstring). -/
structure CachedConfig where
  ref : Nat
  config : NamespaceConfig
deriving DecidableEq, Repr

/-- The module-level mutable state behind `parseNamespacePatterns`: the
`configCache` map (validation.ts line 445) plus the next free allocation
tag. -/
structure CacheState where
  cache : JsMap CachedConfig
  nextRef : Nat
deriving Repr

/-- The empty cache state at module load. -/
def initialCacheState : CacheState := { cache := [], nextRef := 0 }

/-- `parseNamespacePatterns` (validation.ts lines 464-503): look the exact
input string up in the cache and return the cached config on a hit;
otherwise compile, cache under the original input string, and return the
fresh config. -/
def parseNamespacePatterns (st : CacheState) (patterns : String) :
    CachedConfig × CacheState :=
  match assocGet st.cache patterns with
  | some cached => (cached, st)
  | none =>
      let config : CachedConfig := { ref := st.nextRef, config := compilePatterns patterns }
      (config, { cache := assocSet st.cache patterns config, nextRef := st.nextRef + 1 })

/-- `clearNamespaceCache` (validation.ts lines 592-594). -/
def clearNamespaceCache (st : CacheState) : CacheState :=
  { cache := [], nextRef := st.nextRef }

/-- A sequence of further `parseNamespacePatterns` calls (used to state
"with no intervening `clearNamespaceCache`"). -/
def runParses (st : CacheState) : List String → CacheState
  | [] => st
  | q :: qs => runParses (parseNamespacePatterns st q).2 qs

/-- Well-formedness of the cache state, maintained by the module: every
cached config was compiled from its key, carries a tag below `nextRef`,
and keys and tags are duplicate-free. -/
def CacheWF (st : CacheState) : Prop :=
  (∀ kv ∈ st.cache, kv.2.ref < st.nextRef ∧ kv.2.config = compilePatterns kv.1)
    ∧ (mapKeys st.cache).Nodup
    ∧ (st.cache.map fun kv => kv.2.ref).Nodup

/-! ### Association-list lemmas -/

theorem assocGet_eq_none_of_not_mem_keys {α : Type} {s : JsMap α} {k : String}
    (h : k ∉ mapKeys s) : assocGet s k = none := by
  induction s with
  | nil => rfl
  | cons kv rest ih =>
      obtain ⟨k0, v0⟩ := kv
      simp only [mapKeys, List.map_cons, List.mem_cons, not_or] at h
      have hne : k0 ≠ k := fun hk => h.1 hk.symm
      simp only [assocGet, if_neg hne]
      exact ih (by simpa [mapKeys] using h.2)

theorem assocGet_eq_of_mem_nodup {α : Type} {s : JsMap α} {k : String} {v : α}
    (hmem : (k, v) ∈ s) (hnd : (mapKeys s).Nodup) : assocGet s k = some v := by
  induction s with
  | nil => cases hmem
  | cons kv rest ih =>
      obtain ⟨k0, v0⟩ := kv
      simp only [mapKeys, List.map_cons, List.nodup_cons] at hnd
      rcases List.mem_cons.mp hmem with heq | hmem2
      · injection heq with h1 h2
        subst h1
        subst h2
        simp [assocGet]
      · have hne : k0 ≠ k := by
          intro h
          subst h
          exact hnd.1 (List.mem_map.mpr ⟨(k0, v), hmem2, rfl⟩)
        simp only [assocGet, if_neg hne]
        exact ih hmem2 hnd.2

theorem assocGet_assocSet_self {α : Type} (s : JsMap α) (k : String) (v : α) :
    assocGet (assocSet s k v) k = some v := by
  induction s with
  | nil => simp [assocSet, assocGet]
  | cons kv rest ih =>
      by_cases h : kv.1 = k
      · simp [assocSet, assocGet, h]
      · simp [assocSet, assocGet, h, ih]

theorem assocGet_assocDelete_self {α : Type} {s : JsMap α} (k : String)
    (hnd : (mapKeys s).Nodup) : assocGet (assocDelete s k) k = none := by
  induction s with
  | nil => rfl
  | cons kv rest ih =>
      simp only [mapKeys, List.map_cons, List.nodup_cons] at hnd
      by_cases h : kv.1 = k
      · subst h
        simp only [assocDelete, if_pos rfl]
        exact assocGet_eq_none_of_not_mem_keys hnd.1
      · simp only [assocDelete, if_neg h, assocGet, if_neg h]
        exact ih hnd.2

theorem length_assocSet_le {α : Type} (s : JsMap α) (k : String) (v : α) :
    (assocSet s k v).length ≤ s.length + 1 := by
  induction s with
  | nil => simp [assocSet]
  | cons kv rest ih =>
      by_cases h : kv.1 = k
      · simp [assocSet, h]
      · simp only [assocSet, if_neg h, List.length_cons]
        omega

theorem length_assocDelete_add_one {α : Type} {s : JsMap α} {k : String} {v : α}
    (hmem : (k, v) ∈ s) : (assocDelete s k).length + 1 = s.length := by
  induction s with
  | nil => cases hmem
  | cons kv rest ih =>
      rcases List.mem_cons.mp hmem with heq | hmem2
      · have hk : kv.1 = k := by rw [← heq]
        simp [assocDelete, hk]
      · by_cases h : kv.1 = k
        · simp [assocDelete, h]
        · have := ih hmem2
          simp only [assocDelete, if_neg h, List.length_cons]
          omega

/-! ### Eviction lemmas -/

theorem findOldest_spec (s : TraceStore) (o : Option String) (b : Nat) :
    (TraceContextManager.findOldest s (o, b) = (o, b) ∧
        ∀ kv ∈ s, b ≤ kv.2.lastAccessed) ∨
      (∃ k e, (k, e) ∈ s ∧
        TraceContextManager.findOldest s (o, b) = (some k, e.lastAccessed) ∧
        e.lastAccessed < b ∧ ∀ kv ∈ s, e.lastAccessed ≤ kv.2.lastAccessed) := by
  induction s generalizing o b with
  | nil => exact Or.inl ⟨rfl, by simp⟩
  | cons kv rest ih =>
      obtain ⟨k0, e0⟩ := kv
      by_cases hlt : e0.lastAccessed < b
      · have hstep : TraceContextManager.findOldest ((k0, e0) :: rest) (o, b)
            = TraceContextManager.findOldest rest (some k0, e0.lastAccessed) := by
          simp [TraceContextManager.findOldest, hlt]
        rcases ih (some k0) e0.lastAccessed with ⟨heq, hall⟩ | ⟨k, e, hmem, heq, hlt2, hall⟩
        · refine Or.inr ⟨k0, e0, List.mem_cons_self _ _, by rw [hstep, heq], hlt, ?_⟩
          intro kv2 hkv2
          rcases List.mem_cons.mp hkv2 with h | h
          · subst h; exact le_refl _
          · exact hall kv2 h
        · refine Or.inr ⟨k, e, List.mem_cons_of_mem _ hmem, by rw [hstep]; exact heq,
            lt_trans hlt2 hlt, ?_⟩
          intro kv2 hkv2
          rcases List.mem_cons.mp hkv2 with h | h
          · subst h; exact le_of_lt hlt2
          · exact hall kv2 h
      · have hstep : TraceContextManager.findOldest ((k0, e0) :: rest) (o, b)
            = TraceContextManager.findOldest rest (o, b) := by
          simp [TraceContextManager.findOldest, hlt]
        rcases ih o b with ⟨heq, hall⟩ | ⟨k, e, hmem, heq, hlt2, hall⟩
        · refine Or.inl ⟨by rw [hstep, heq], ?_⟩
          intro kv2 hkv2
          rcases List.mem_cons.mp hkv2 with h | h
          · subst h; exact not_lt.mp hlt
          · exact hall kv2 h
        · refine Or.inr ⟨k, e, List.mem_cons_of_mem _ hmem, by rw [hstep]; exact heq, hlt2, ?_⟩
          intro kv2 hkv2
          rcases List.mem_cons.mp hkv2 with h | h
          · subst h; exact le_of_lt (lt_of_lt_of_le hlt2 (not_lt.mp hlt))
          · exact hall kv2 h

theorem evictOldest_spec {s : TraceStore} {now : Nat}
    (h : ∃ kv ∈ s, kv.2.lastAccessed < now) :
    ∃ k e, (k, e) ∈ s ∧ (∀ kv ∈ s, e.lastAccessed ≤ kv.2.lastAccessed) ∧
      TraceContextManager.evictOldest s now = assocDelete s k := by
  rcases findOldest_spec s none now with ⟨heq, hall⟩ | ⟨k, e, hmem, heq, _, hall⟩
  · obtain ⟨kv, hkv, hlt⟩ := h
    exact absurd (hall kv hkv) (not_le.mpr hlt)
  · exact ⟨k, e, hmem, hall, by simp [TraceContextManager.evictOldest, heq]⟩

/-! ### Claim C1 -/

/-- C1 counterexample: the claimed invariant "size() after any set is at
most maxSize" fails on the code.  With `maxSize = 1`, insert `"a"` at time
5, then insert the distinct id `"b"` also at time 5: the store is at
capacity, but `evictOldest` starts its scan with `oldestTime = Date.now()`
and only selects entries with `lastAccessed` *strictly* below it, so the
sole entry (`lastAccessed = 5`, not `< 5`) is never chosen, nothing is
evicted, and the size reaches 2 > maxSize = 1. -/
theorem traceStore_set_size_cex :
    TraceContextManager.size
        (TraceContextManager.set ⟨1, 100, 60⟩
          (TraceContextManager.set ⟨1, 100, 60⟩ [] 5 5 "a" ⟨"t1", "s1", none, none⟩)
          5 5 "b" ⟨"t2", "s2", none, none⟩) = 2 ∧
      (⟨1, 100, 60⟩ : TraceContextConfig).maxSize = 1 := by
  decide

/-- C1 (amended): if the store's size is at most `maxSize` and, whenever it
is at capacity, some stored entry's `lastAccessed` is strictly below the
clock value `evictOldest` reads (which holds whenever the clock has
advanced since the last touch), then `set` keeps the size at most
`maxSize`; in the at-capacity case the eviction removes exactly one entry,
one holding the minimum `lastAccessed` over all stored entries at that
moment. -/
theorem traceStore_set_size_bound (cfg : TraceContextConfig) (s : TraceStore)
    (now nowEvict : Nat) (threadId : String) (ctx : SpanContext)
    (hnd : (mapKeys s).Nodup)
    (hsize : s.length ≤ cfg.maxSize)
    (hev : cfg.maxSize ≤ s.length → ∃ kv ∈ s, kv.2.lastAccessed < nowEvict) :
    (TraceContextManager.set cfg s now nowEvict threadId ctx).length ≤ cfg.maxSize ∧
      (cfg.maxSize ≤ s.length →
        ∃ k e, assocGet s k = some e ∧
          (∀ kv ∈ s, e.lastAccessed ≤ kv.2.lastAccessed) ∧
          TraceContextManager.evictOldest s nowEvict = assocDelete s k ∧
          (assocDelete s k).length + 1 = s.length) := by
  by_cases hfull : cfg.maxSize ≤ s.length
  · obtain ⟨k, e, hmem, hmin, hevict⟩ := evictOldest_spec (hev hfull)
    have hget := assocGet_eq_of_mem_nodup hmem hnd
    have hlen := length_assocDelete_add_one hmem
    constructor
    · show (TraceContextManager.set cfg s now nowEvict threadId ctx).length ≤ cfg.maxSize
      simp only [TraceContextManager.set, if_pos hfull, hevict]
      have := length_assocSet_le (assocDelete s k) threadId
        ⟨ctx, now, now⟩
      omega
    · exact fun _ => ⟨k, e, hget, hmin, hevict, hlen⟩
  · constructor
    · simp only [TraceContextManager.set, if_neg hfull]
      have := length_assocSet_le s threadId ⟨ctx, now, now⟩
      omega
    · exact fun h => absurd h hfull

/-- Witness for `traceStore_set_size_bound` at a concrete input: one entry
touched at time 1, capacity 1, new id inserted with the eviction clock at
5. -/
theorem traceStore_set_size_bound_witness :
    (TraceContextManager.set ⟨1, 100, 60⟩
        [("a", ⟨⟨"t1", "s1", none, none⟩, 1, 1⟩)] 5 5 "b"
        ⟨"t2", "s2", none, none⟩).length ≤ 1 :=
  (traceStore_set_size_bound ⟨1, 100, 60⟩
      [("a", ⟨⟨"t1", "s1", none, none⟩, 1, 1⟩)] 5 5 "b" ⟨"t2", "s2", none, none⟩
      (by decide) (by decide) (by decide)).1

/-! ### Claim C9 -/

/-- C9 (confirmed): overwriting an existing key in a full store still runs
the eviction and can delete a different key's least-recently-accessed
entry, leaving the size strictly below `maxSize`.  Concretely, with
`maxSize = 2`: insert `"a"` at time 1 and `"b"` at time 2 (store full),
then `set("b", …)` at time 10.  The eviction removes `"a"` (minimum
`lastAccessed = 1`), the `"b"` entry is overwritten, and only one entry
remains (size 1 < 2). -/
theorem traceStore_set_overwrite_evicts_other :
    TraceContextManager.set ⟨2, 1000, 60⟩
        (TraceContextManager.set ⟨2, 1000, 60⟩
          (TraceContextManager.set ⟨2, 1000, 60⟩ [] 1 1 "a" ⟨"ta", "sa", none, none⟩)
          2 2 "b" ⟨"tb", "sb", none, none⟩)
        10 10 "b" ⟨"tb2", "sb2", none, none⟩
      = [("b", ⟨⟨"tb2", "sb2", none, none⟩, 10, 10⟩)] ∧
      TraceContextManager.size [("b", ⟨⟨"tb2", "sb2", none, none⟩, 10, 10⟩)]
        < (⟨2, 1000, 60⟩ : TraceContextConfig).maxSize := by
  decide

/-! ### Record and mixin lemmas -/

theorem assocGet_cons_eq {α : Type} (k : String) (v : α) (rest : JsMap α) :
    assocGet ((k, v) :: rest) k = some v := by
  simp [assocGet]

theorem assocGet_cons_ne {α : Type} {k0 k : String} (hne : k0 ≠ k) (v : α)
    (rest : JsMap α) : assocGet ((k0, v) :: rest) k = assocGet rest k := by
  simp [assocGet, hne]

theorem traceMixin_fst_eq (cfg : TraceContextConfig) (provider : Option ProviderResult)
    (s : TraceStore) (now : Nat) (threadId : String) :
    (traceMixin cfg provider s now threadId).1
      = match obtainedContext cfg provider s now threadId with
        | some ctx => contextToRecord ctx
        | none => [] := by
  rcases provider with _ | pr
  · cases hg : (TraceContextManager.get cfg s now threadId).1 <;>
      simp [traceMixin, obtainedContext, hg]
  · rcases pr with e | octx
    · cases hg : (TraceContextManager.get cfg s now threadId).1 <;>
        simp [traceMixin, obtainedContext, hg]
    · cases octx <;> simp [traceMixin, obtainedContext]

theorem contextToRecord_trace_id (ctx : SpanContext) :
    assocGet (contextToRecord ctx) "trace_id" = some ctx.traceId := by
  rcases ctx with ⟨tid, sid, fl, st⟩
  simp [contextToRecord, assocGet]

theorem contextToRecord_span_id (ctx : SpanContext) :
    assocGet (contextToRecord ctx) "span_id" = some ctx.spanId := by
  rcases ctx with ⟨tid, sid, fl, st⟩
  have h1 : ("trace_id" : String) ≠ "span_id" := by decide
  simp [contextToRecord, assocGet, h1]

theorem contextToRecord_flags (ctx : SpanContext) :
    assocGet (contextToRecord ctx) "trace_flags"
      = match ctx.traceFlags with
        | some f => if 0 < f.length then some f else none
        | none => none := by
  rcases ctx with ⟨tid, sid, fl, st⟩
  have h1 : ("trace_id" : String) ≠ "trace_flags" := by decide
  have h2 : ("span_id" : String) ≠ "trace_flags" := by decide
  have h3 : ("trace_state" : String) ≠ "trace_flags" := by decide
  rcases fl with _ | f <;> rcases st with _ | t
  · simp [contextToRecord, assocGet, h1, h2]
  · by_cases ht : 0 < t.length <;> simp [contextToRecord, assocGet, h1, h2, h3, ht]
  · by_cases hf : 0 < f.length <;> simp [contextToRecord, assocGet, h1, h2, hf]
  · by_cases hf : 0 < f.length <;> by_cases ht : 0 < t.length <;>
      simp [contextToRecord, assocGet, h1, h2, h3, hf, ht]

theorem contextToRecord_state (ctx : SpanContext) :
    assocGet (contextToRecord ctx) "trace_state"
      = match ctx.traceState with
        | some t => if 0 < t.length then some t else none
        | none => none := by
  rcases ctx with ⟨tid, sid, fl, st⟩
  have h1 : ("trace_id" : String) ≠ "trace_state" := by decide
  have h2 : ("span_id" : String) ≠ "trace_state" := by decide
  have h3 : ("trace_flags" : String) ≠ "trace_state" := by decide
  rcases fl with _ | f <;> rcases st with _ | t
  · simp [contextToRecord, assocGet, h1, h2]
  · by_cases ht : 0 < t.length <;> simp [contextToRecord, assocGet, h1, h2, ht]
  · by_cases hf : 0 < f.length <;> simp [contextToRecord, assocGet, h1, h2, h3, hf]
  · by_cases hf : 0 < f.length <;> by_cases ht : 0 < t.length <;>
      simp [contextToRecord, assocGet, h1, h2, h3, hf, ht]

theorem contextToRecord_flags_isSome (ctx : SpanContext) :
    (assocGet (contextToRecord ctx) "trace_flags").isSome
      ↔ ∃ f, ctx.traceFlags = some f ∧ 0 < f.length := by
  rw [contextToRecord_flags]
  cases hfl : ctx.traceFlags with
  | none => simp
  | some f => by_cases hf : 0 < f.length <;> simp [hf]

theorem contextToRecord_state_isSome (ctx : SpanContext) :
    (assocGet (contextToRecord ctx) "trace_state").isSome
      ↔ ∃ t, ctx.traceState = some t ∧ 0 < t.length := by
  rw [contextToRecord_state]
  cases hst : ctx.traceState with
  | none => simp
  | some t => by_cases ht : 0 < t.length <;> simp [ht]

theorem contextToRecord_keys (ctx : SpanContext) :
    ∀ key ∈ mapKeys (contextToRecord ctx),
      key = "trace_id" ∨ key = "span_id" ∨ key = "trace_flags"
        ∨ key = "trace_state" := by
  rcases ctx with ⟨tid, sid, fl, st⟩
  intro key hk
  rcases fl with _ | f <;> rcases st with _ | t
  · simp [contextToRecord, mapKeys] at hk
    tauto
  · by_cases ht : 0 < t.length <;> simp [contextToRecord, mapKeys, ht] at hk <;> tauto
  · by_cases hf : 0 < f.length <;> simp [contextToRecord, mapKeys, hf] at hk <;> tauto
  · by_cases hf : 0 < f.length <;> by_cases ht : 0 < t.length <;>
      simp [contextToRecord, mapKeys, hf, ht] at hk <;> tauto

/-! ### Claim C2 -/

/-- C2 (confirmed): `get` returns absent when nothing is stored under the
id; when the stored entry's age `now - timestamp` strictly exceeds `ttlMs`
it deletes the entry (afterwards the id maps to nothing) and returns
absent; otherwise it rewrites the entry's `lastAccessed` to `now` in place
and returns the stored span context unchanged. -/
theorem traceStore_get_spec (cfg : TraceContextConfig) (s : TraceStore)
    (now : Nat) (threadId : String) (hnd : (mapKeys s).Nodup) :
    (assocGet s threadId = none →
        TraceContextManager.get cfg s now threadId = (none, s)) ∧
      (∀ e, assocGet s threadId = some e →
        cfg.ttlMs < now - e.timestamp →
          TraceContextManager.get cfg s now threadId
              = (none, assocDelete s threadId) ∧
            assocGet (assocDelete s threadId) threadId = none) ∧
      (∀ e, assocGet s threadId = some e →
        ¬ cfg.ttlMs < now - e.timestamp →
          TraceContextManager.get cfg s now threadId
              = (some e.context, assocSet s threadId { e with lastAccessed := now }) ∧
            assocGet (assocSet s threadId { e with lastAccessed := now }) threadId
              = some { e with lastAccessed := now }) := by
  refine ⟨?_, ?_, ?_⟩
  · intro h
    simp [TraceContextManager.get, h]
  · intro e he hexp
    exact ⟨by simp [TraceContextManager.get, he, hexp],
      assocGet_assocDelete_self threadId hnd⟩
  · intro e he hexp
    exact ⟨by simp [TraceContextManager.get, he, hexp],
      assocGet_assocSet_self ..⟩

/-- Witness for `traceStore_get_spec`: a single entry written at time 0
with `ttlMs = 10` is expired at time 100, so `get` deletes it and returns
absent. -/
theorem traceStore_get_spec_witness :
    TraceContextManager.get ⟨10, 10, 60⟩
        [("a", ⟨⟨"t", "s", none, none⟩, 0, 0⟩)] 100 "a"
        = (none, assocDelete ([("a", ⟨⟨"t", "s", none, none⟩, 0, 0⟩)] : TraceStore) "a") ∧
      assocGet (assocDelete ([("a", ⟨⟨"t", "s", none, none⟩, 0, 0⟩)] : TraceStore) "a") "a"
        = none :=
  (traceStore_get_spec ⟨10, 10, 60⟩ [("a", ⟨⟨"t", "s", none, none⟩, 0, 0⟩)]
      100 "a" (by decide)).2.1 ⟨⟨"t", "s", none, none⟩, 0, 0⟩ (by decide) (by decide)

/-! ### Claim C3 -/

/-- C3 (confirmed): whenever the mixin obtains a span context (from the
provider or the store) it produces exactly the record with `trace_id` equal
to the context's `traceId`, `span_id` equal to its `spanId`, a
`trace_flags` key present precisely when `traceFlags` is a non-empty
string, a `trace_state` key present precisely when `traceState` is a
non-empty string, and no key beyond these four; when no context is
obtained it produces the empty record. -/
theorem traceMixin_output_fields (cfg : TraceContextConfig)
    (provider : Option ProviderResult) (s : TraceStore) (now : Nat)
    (threadId : String) :
    (∀ ctx, obtainedContext cfg provider s now threadId = some ctx →
        (traceMixin cfg provider s now threadId).1 = contextToRecord ctx ∧
          assocGet (contextToRecord ctx) "trace_id" = some ctx.traceId ∧
          assocGet (contextToRecord ctx) "span_id" = some ctx.spanId ∧
          ((assocGet (contextToRecord ctx) "trace_flags").isSome
            ↔ ∃ f, ctx.traceFlags = some f ∧ 0 < f.length) ∧
          ((assocGet (contextToRecord ctx) "trace_state").isSome
            ↔ ∃ t, ctx.traceState = some t ∧ 0 < t.length) ∧
          ∀ key ∈ mapKeys (contextToRecord ctx),
            key = "trace_id" ∨ key = "span_id" ∨ key = "trace_flags"
              ∨ key = "trace_state") ∧
      (obtainedContext cfg provider s now threadId = none →
        (traceMixin cfg provider s now threadId).1 = []) := by
  constructor
  · intro ctx hctx
    exact ⟨by rw [traceMixin_fst_eq, hctx], contextToRecord_trace_id ctx,
      contextToRecord_span_id ctx, contextToRecord_flags_isSome ctx,
      contextToRecord_state_isSome ctx, contextToRecord_keys ctx⟩
  · intro hctx
    rw [traceMixin_fst_eq, hctx]

/-- Witness for `traceMixin_output_fields`: a provider returning a context
with a non-empty `traceFlags` yields exactly that context's record. -/
theorem traceMixin_output_fields_witness :
    (traceMixin ⟨10, 100, 60⟩
        (some (Except.ok (some ⟨"t1", "s1", some "01", none⟩))) [] 0 "a").1
      = contextToRecord ⟨"t1", "s1", some "01", none⟩ :=
  ((traceMixin_output_fields ⟨10, 100, 60⟩
      (some (Except.ok (some ⟨"t1", "s1", some "01", none⟩))) [] 0 "a").1
    ⟨"t1", "s1", some "01", none⟩ rfl).1

/-! ### Claim C4 -/

/-- C4 (confirmed): a throwing `getActiveContext` provider is caught and
the mixin behaves exactly as if no provider had been supplied, falling
back to the manual store's `get` for the current context id — with the
same record and the same store mutation. -/
theorem traceMixin_throw_equals_no_provider (cfg : TraceContextConfig)
    (e : Unit) (s : TraceStore) (now : Nat) (threadId : String) :
    traceMixin cfg (some (Except.error e)) s now threadId
        = traceMixin cfg none s now threadId ∧
      obtainedContext cfg (some (Except.error e)) s now threadId
        = (TraceContextManager.get cfg s now threadId).1 :=
  ⟨rfl, rfl⟩

/-! ### Claim C10 -/

/-- C10 (confirmed): when the provider is supplied and returns `undefined`
without throwing, the mixin returns the empty record and does not read or
modify the store at all — even if a context is stored for the current id,
and whatever the store holds. -/
theorem traceMixin_provider_undefined_no_fallback (cfg : TraceContextConfig)
    (s : TraceStore) (now : Nat) (threadId : String) :
    traceMixin cfg (some (Except.ok none)) s now threadId = ([], s) :=
  rfl

/-! ### Cache lemmas -/

theorem assocGet_mem {α : Type} {s : JsMap α} {k : String} {v : α}
    (h : assocGet s k = some v) : (k, v) ∈ s := by
  induction s with
  | nil => cases h
  | cons kv rest ih =>
      obtain ⟨k0, v0⟩ := kv
      by_cases hk : k0 = k
      · subst hk
        have h2 : v0 = v := by simpa [assocGet] using h
        subst h2
        exact List.mem_cons_self _ _
      · simp only [assocGet, if_neg hk] at h
        exact List.mem_cons_of_mem _ (ih h)

theorem initial_cache_wf : CacheWF initialCacheState := by
  refine ⟨?_, ?_, ?_⟩ <;> simp [initialCacheState, mapKeys, CacheWF]

theorem parse_returns_compiled {st : CacheState} (hwf : CacheWF st) (p : String) :
    (parseNamespacePatterns st p).1.config = compilePatterns p := by
  unfold parseNamespacePatterns
  cases hg : assocGet st.cache p with
  | none => simp [hg]
  | some c =>
      simp only [hg]
      exact (hwf.1 (p, c) (assocGet_mem hg)).2

/-! ### Claim C5 -/

/-- C5 counterexample: the claim that `isNamespaceEnabled("", config)` is
false for *every* `parseNamespacePatterns`-produced config with non-empty
matchers fails: the pattern string `"*,*"` is neither empty nor exactly
`"*"` after trimming, so it compiles to two matchers, each the wildcard
glob `^.*$`, which fully matches the empty namespace. -/
theorem isNamespaceEnabled_empty_cex :
    (parseNamespacePatterns initialCacheState "*,*").1.config.matchers ≠ [] ∧
      isNamespaceEnabled ""
        (parseNamespacePatterns initialCacheState "*,*").1.config = true := by
  decide

/-- C5 (amended): for a config with non-empty matchers,
`isNamespaceEnabled` returns true iff at least one matcher fully matches
the namespace; in particular it returns false on the empty namespace
exactly when no matcher matches the empty string (which a config with
non-empty matchers, e.g. one compiled from `"*,*"`, may still do). -/
theorem isNamespaceEnabled_iff_matcher (ns : String) (config : NamespaceConfig)
    (h : config.matchers ≠ []) :
    isNamespaceEnabled ns config = true
      ↔ ∃ m ∈ config.matchers, globMatch m ns.data = true := by
  simp only [isNamespaceEnabled]
  rw [if_neg (by simpa [List.length_eq_zero] using h)]
  simp [List.any_eq_true]

/-- Witness for `isNamespaceEnabled_iff_matcher` at the compiled config of
`"voice:*"` and the namespace `"voice:orchestrator"`. -/
theorem isNamespaceEnabled_iff_matcher_witness :
    isNamespaceEnabled "voice:orchestrator" (compilePatterns "voice:*") = true
      ↔ ∃ m ∈ (compilePatterns "voice:*").matchers,
          globMatch m "voice:orchestrator".data = true :=
  isNamespaceEnabled_iff_matcher "voice:orchestrator" (compilePatterns "voice:*")
    (by decide)

/-! ### Claim C6 -/

/-- C6 (confirmed): any pattern whose trimmed form is the empty string or
exactly `"*"` (in particular `"*"` and `""` themselves) parses to a config
with an empty matcher list, and under such a config every namespace —
including the empty string — is enabled. -/
theorem wildcard_and_empty_patterns_enable_all (st : CacheState) (p ns : String)
    (hwf : CacheWF st) (h : jsTrim p = "" ∨ jsTrim p = "*") :
    (parseNamespacePatterns st p).1.config.matchers = [] ∧
      isNamespaceEnabled ns (parseNamespacePatterns st p).1.config = true := by
  have hm : (parseNamespacePatterns st p).1.config.matchers = [] := by
    rw [parse_returns_compiled hwf p]
    unfold compilePatterns
    rcases h with h | h <;> simp [h]
  exact ⟨hm, by simp [isNamespaceEnabled, hm]⟩

/-- Witness for `wildcard_and_empty_patterns_enable_all`: the pattern
`"*"` parsed from the pristine cache enables the empty namespace. -/
theorem wildcard_and_empty_patterns_enable_all_witness :
    (parseNamespacePatterns initialCacheState "*").1.config.matchers = [] ∧
      isNamespaceEnabled "" (parseNamespacePatterns initialCacheState "*").1.config
        = true :=
  wildcard_and_empty_patterns_enable_all initialCacheState "*" ""
    initial_cache_wf (by decide)

/-! ### Claim C7 -/

theorem pickFirstNonEmpty_nil : pickFirstNonEmpty [] = none := rfl

theorem pickFirstNonEmpty_cons (o : Option String) (rest : List (Option String)) :
    pickFirstNonEmpty (o :: rest)
      = if presentNonEmpty o then some (o.getD "") else pickFirstNonEmpty rest := by
  rcases o with _ | s
  · simp [pickFirstNonEmpty, presentNonEmpty]
  · by_cases h : 0 < s.length <;> simp [pickFirstNonEmpty, presentNonEmpty, h]

theorem pickFirstNonEmpty_ne_empty {l : List (Option String)} {x : String}
    (h : pickFirstNonEmpty l = some x) : x ≠ "" := by
  induction l with
  | nil => cases h
  | cons o rest ih =>
      rcases o with _ | s
      · exact ih (by simpa [pickFirstNonEmpty] using h)
      · by_cases hs : 0 < s.length
        · have hx : s = x := by simpa [pickFirstNonEmpty, hs] using h
          subst hx
          intro heq
          subst heq
          exact absurd hs (by decide)
        · exact ih (by simpa [pickFirstNonEmpty, hs] using h)

/-- C7 (confirmed): `buildNamespace` computes exactly the spec's priority
join — primary part `component` else `service`, secondary part `layer`
else `operation` else `domain`, suffix `integration`, each only when
non-empty — never includes an empty segment, and yields the empty string
when every candidate field is empty or absent. -/
theorem buildNamespace_follows_spec (m : ServiceMetadata) :
    buildNamespace m = buildNamespaceSpec m ∧
      (∀ x ∈ ([pickFirstNonEmpty [m.component, m.service],
               pickFirstNonEmpty [m.layer, m.operation, m.domain],
               pickFirstNonEmpty [m.integration]].filterMap id), x ≠ "") ∧
      (presentNonEmpty m.component = false → presentNonEmpty m.service = false →
        presentNonEmpty m.layer = false → presentNonEmpty m.operation = false →
        presentNonEmpty m.domain = false → presentNonEmpty m.integration = false →
        buildNamespace m = "") := by
  refine ⟨?_, ?_, ?_⟩
  · cases hc : presentNonEmpty m.component <;>
      cases hs : presentNonEmpty m.service <;>
      cases hl : presentNonEmpty m.layer <;>
      cases ho : presentNonEmpty m.operation <;>
      cases hd : presentNonEmpty m.domain <;>
      cases hi : presentNonEmpty m.integration <;>
      simp [buildNamespace, buildNamespaceSpec, pickFirstNonEmpty_cons,
        pickFirstNonEmpty_nil, hc, hs, hl, ho, hd, hi]
  · intro x hx
    rcases List.mem_filterMap.mp hx with ⟨a, ha, hax⟩
    have hax2 : a = some x := hax
    simp only [List.mem_cons, List.not_mem_nil, or_false] at ha
    rcases ha with ha | ha | ha
    · exact pickFirstNonEmpty_ne_empty (ha.symm.trans hax2)
    · exact pickFirstNonEmpty_ne_empty (ha.symm.trans hax2)
    · exact pickFirstNonEmpty_ne_empty (ha.symm.trans hax2)
  · intro h1 h2 h3 h4 h5 h6
    simp [buildNamespace, h1, h2, h3, h4, h5, h6]
    rfl

/-- Witness for `buildNamespace_follows_spec`: the all-absent metadata
yields the empty namespace. -/
theorem buildNamespace_follows_spec_witness :
    buildNamespace ({} : ServiceMetadata) = "" :=
  (buildNamespace_follows_spec {}).2.2 (by decide) (by decide) (by decide)
    (by decide) (by decide) (by decide)

/-! ### Claim C8 -/

theorem not_mem_keys_of_assocGet_none {α : Type} {s : JsMap α} {k : String}
    (h : assocGet s k = none) : k ∉ mapKeys s := by
  induction s with
  | nil => simp [mapKeys]
  | cons kv rest ih =>
      obtain ⟨k0, v0⟩ := kv
      by_cases hk : k0 = k
      · simp [assocGet, hk] at h
      · simp only [assocGet, if_neg hk] at h
        simp only [mapKeys, List.map_cons, List.mem_cons, not_or]
        exact ⟨fun he => hk he.symm, by simpa [mapKeys] using ih h⟩

theorem assocSet_eq_append {α : Type} {s : JsMap α} {k : String}
    (h : assocGet s k = none) (v : α) : assocSet s k v = s ++ [(k, v)] := by
  induction s with
  | nil => rfl
  | cons kv rest ih =>
      obtain ⟨k0, v0⟩ := kv
      by_cases hk : k0 = k
      · simp [assocGet, hk] at h
      · simp only [assocGet, if_neg hk] at h
        simp [assocSet, hk, ih h]

theorem assocGet_assocSet_ne {α : Type} {s : JsMap α} {q k : String}
    (hne : q ≠ k) (v : α) : assocGet (assocSet s q v) k = assocGet s k := by
  induction s with
  | nil => simp [assocSet, assocGet, hne]
  | cons kv rest ih =>
      obtain ⟨k0, v0⟩ := kv
      by_cases hk : k0 = q
      · subst hk
        simp [assocSet, assocGet, hne]
      · simp [assocSet, assocGet, hk, ih]

theorem mapKeys_append {α : Type} (s t : JsMap α) :
    mapKeys (s ++ t) = mapKeys s ++ mapKeys t := by
  simp [mapKeys]

theorem parse_of_cached {st : CacheState} {p : String} {c : CachedConfig}
    (h : assocGet st.cache p = some c) :
    parseNamespacePatterns st p = (c, st) := by
  unfold parseNamespacePatterns
  simp [h]

theorem parse_caches_result (st : CacheState) (p : String) :
    assocGet (parseNamespacePatterns st p).2.cache p
      = some (parseNamespacePatterns st p).1 := by
  unfold parseNamespacePatterns
  cases hg : assocGet st.cache p with
  | some c => simp [hg]
  | none => simp [hg, assocGet_assocSet_self]

theorem parse_preserves_cached {st : CacheState} {p : String} {c : CachedConfig}
    (h : assocGet st.cache p = some c) (q : String) :
    assocGet (parseNamespacePatterns st q).2.cache p = some c := by
  unfold parseNamespacePatterns
  cases hg : assocGet st.cache q with
  | some c2 => simpa [hg] using h
  | none =>
      have hne : q ≠ p := by
        rintro rfl
        rw [h] at hg
        cases hg
      simp [hg, assocGet_assocSet_ne hne, h]

theorem parse_nextRef_le (st : CacheState) (q : String) :
    st.nextRef ≤ (parseNamespacePatterns st q).2.nextRef := by
  unfold parseNamespacePatterns
  cases hg : assocGet st.cache q with
  | some c => simp [hg]
  | none =>
      simp only [hg]
      exact Nat.le_succ _

theorem parse_fresh_ref {st : CacheState} {q : String}
    (h : assocGet st.cache q = none) :
    (parseNamespacePatterns st q).1 = ⟨st.nextRef, compilePatterns q⟩ := by
  unfold parseNamespacePatterns
  simp [h]

theorem parse_preserves_wf {st : CacheState} (hwf : CacheWF st) (q : String) :
    CacheWF (parseNamespacePatterns st q).2 := by
  unfold parseNamespacePatterns
  cases hg : assocGet st.cache q with
  | some c => simpa [hg] using hwf
  | none =>
      simp only [hg]
      have happ := assocSet_eq_append hg
        (⟨st.nextRef, compilePatterns q⟩ : CachedConfig)
      have hnotin : q ∉ mapKeys st.cache := not_mem_keys_of_assocGet_none hg
      refine ⟨?_, ?_, ?_⟩
      · intro kv hkv
        have hkv2 : kv ∈ st.cache ++ [(q, ⟨st.nextRef, compilePatterns q⟩)] :=
          happ ▸ hkv
        rcases List.mem_append.mp hkv2 with hold | hnew
        · have h := hwf.1 kv hold
          exact ⟨Nat.lt_succ_of_lt h.1, h.2⟩
        · rw [List.mem_singleton] at hnew
          subst hnew
          exact ⟨Nat.lt_succ_self _, rfl⟩
      · show (mapKeys (assocSet st.cache q ⟨st.nextRef, compilePatterns q⟩)).Nodup
        rw [happ, mapKeys_append]
        refine List.Nodup.append hwf.2.1 (List.nodup_singleton q) ?_
        intro a ha hb
        have hb2 : a = q := List.mem_singleton.mp hb
        exact hnotin (hb2 ▸ ha)
      · show ((assocSet st.cache q ⟨st.nextRef, compilePatterns q⟩).map
            fun kv => kv.2.ref).Nodup
        rw [happ, List.map_append]
        refine List.Nodup.append hwf.2.2 (List.nodup_singleton _) ?_
        intro a ha hb
        rcases List.mem_map.mp ha with ⟨kv, hkv, href⟩
        have hlt := (hwf.1 kv hkv).1
        have hb2 : a = st.nextRef := by simpa using hb
        omega

theorem runParses_preserves_wf :
    ∀ (qs : List String) (st : CacheState),
      CacheWF st → CacheWF (runParses st qs) := by
  intro qs
  induction qs with
  | nil => exact fun st h => h
  | cons q qs ih => exact fun st h => ih _ (parse_preserves_wf h q)

theorem runParses_preserves_cached :
    ∀ (qs : List String) (st : CacheState) (p : String) (c : CachedConfig),
      assocGet st.cache p = some c →
      assocGet (runParses st qs).cache p = some c := by
  intro qs
  induction qs with
  | nil => exact fun st p c h => h
  | cons q qs ih => exact fun st p c h => ih _ _ _ (parse_preserves_cached h q)

/-- C8 (confirmed, with object identity modelled by allocation tags): a
second `parseNamespacePatterns` call with the same pattern string, after
any intervening parses and no intervening `clearNamespaceCache`, returns
the identical cached config object; a call with a different pattern string
never returns the same instance; after `clearNamespaceCache`, parsing the
original pattern returns a fresh object (different identity) whose
compiled config — and hence matching behavior — is equal to the
original's. -/
theorem parseNamespacePatterns_cache_identity (st : CacheState) (p q : String)
    (qs : List String) (hwf : CacheWF st) :
    (parseNamespacePatterns (runParses (parseNamespacePatterns st p).2 qs) p).1
        = (parseNamespacePatterns st p).1 ∧
      (p ≠ q →
        (parseNamespacePatterns (runParses (parseNamespacePatterns st p).2 qs) q).1.ref
          ≠ (parseNamespacePatterns st p).1.ref) ∧
      (parseNamespacePatterns
          (clearNamespaceCache
            (runParses (parseNamespacePatterns st p).2 qs)) p).1.ref
        ≠ (parseNamespacePatterns st p).1.ref ∧
      (parseNamespacePatterns
          (clearNamespaceCache
            (runParses (parseNamespacePatterns st p).2 qs)) p).1.config
        = (parseNamespacePatterns st p).1.config ∧
      ∀ ns, isNamespaceEnabled ns
            (parseNamespacePatterns
              (clearNamespaceCache
                (runParses (parseNamespacePatterns st p).2 qs)) p).1.config
          = isNamespaceEnabled ns (parseNamespacePatterns st p).1.config := by
  have hc1 := parse_caches_result st p
  have hwf1 := parse_preserves_wf hwf p
  have hc2 := runParses_preserves_cached qs _ _ _ hc1
  have hwf2 := runParses_preserves_wf qs _ hwf1
  have hmem1 : (p, (parseNamespacePatterns st p).1)
      ∈ (runParses (parseNamespacePatterns st p).2 qs).cache := assocGet_mem hc2
  have hlt1 : (parseNamespacePatterns st p).1.ref
      < (runParses (parseNamespacePatterns st p).2 qs).nextRef := (hwf2.1 _ hmem1).1
  have h3 : parseNamespacePatterns
        (clearNamespaceCache (runParses (parseNamespacePatterns st p).2 qs)) p
      = (⟨(runParses (parseNamespacePatterns st p).2 qs).nextRef, compilePatterns p⟩,
          ⟨[(p, ⟨(runParses (parseNamespacePatterns st p).2 qs).nextRef,
              compilePatterns p⟩)],
            (runParses (parseNamespacePatterns st p).2 qs).nextRef + 1⟩) := rfl
  have hcfg1 : (parseNamespacePatterns st p).1.config = compilePatterns p :=
    parse_returns_compiled hwf p
  have hcfg3 : (parseNamespacePatterns
        (clearNamespaceCache (runParses (parseNamespacePatterns st p).2 qs)) p).1.config
      = (parseNamespacePatterns st p).1.config := by
    rw [h3, hcfg1]
  refine ⟨?_, ?_, ?_, hcfg3, fun ns => by rw [hcfg3]⟩
  · rw [parse_of_cached hc2]
  · intro hpq
    cases hgq : assocGet (runParses (parseNamespacePatterns st p).2 qs).cache q with
    | some c2 =>
        rw [parse_of_cached hgq]
        intro href
        have hmem2 : (q, c2) ∈ (runParses (parseNamespacePatterns st p).2 qs).cache :=
          assocGet_mem hgq
        have heq := List.inj_on_of_nodup_map hwf2.2.2 hmem1 hmem2
          (show (parseNamespacePatterns st p).1.ref = c2.ref from href.symm)
        exact hpq (congrArg Prod.fst heq)
    | none =>
        rw [parse_fresh_ref hgq]
        exact fun href => absurd href.symm (Nat.ne_of_lt hlt1)
  · rw [h3]
    exact Nat.ne_of_gt hlt1

/-- Witness for `parseNamespacePatterns_cache_identity`: parsing `"x:*"`
from the pristine cache, then `"z"`, then `"x:*"` again returns the
original object, while parsing `"y"` yields a distinct instance. -/
theorem parseNamespacePatterns_cache_identity_witness :
    (parseNamespacePatterns
        (runParses (parseNamespacePatterns initialCacheState "x:*").2 ["z"]) "x:*").1
        = (parseNamespacePatterns initialCacheState "x:*").1 ∧
      (parseNamespacePatterns
          (runParses (parseNamespacePatterns initialCacheState "x:*").2 ["z"]) "y").1.ref
        ≠ (parseNamespacePatterns initialCacheState "x:*").1.ref :=
  ⟨(parseNamespacePatterns_cache_identity initialCacheState "x:*" "y" ["z"]
      initial_cache_wf).1,
    (parseNamespacePatterns_cache_identity initialCacheState "x:*" "y" ["z"]
      initial_cache_wf).2.1 (by decide)⟩
